import Mathlib

/-!
# Verification of `lagtraj.utils.era5_heights_pressures`

Shallow embedding of the two numerical kernels of
`src/lagtraj/utils/era5_heights_pressures.py`:

* `steffen_3d` — monotonicity-preserving (Steffen 1990) column interpolation,
  embedded here per column over `ℚ` (the Python code uses floats; the spec's
  properties are stated in exact real arithmetic, and every operation used by
  `steffen_3d` is rational).  The float NaN sentinel is modelled by
  `Option ℚ` with `none` standing for NaN, and the raised Python exception by
  `Except String`.
* `calculate_heights_and_pressures` — hydrostatic integration, embedded per
  column over `ℝ` (the code uses `np.log`, a transcendental function).

The `i`/`j` loops of the Python code treat each horizontal column entirely
independently (no state is shared between `(j, i)` pairs), so the embedding
is of the per-column computation.
-/

namespace Lagtraj

/-! ## Steffen interpolation (`steffen_3d`), per column, over `ℚ`

`L` plays the role of `input_levels[:, j, i]`, `V` of `input_data[:, j, i]`,
`K` of `k_max = input_data.shape[0]`.  Levels and values are total functions
`ℕ → ℚ`; the code only ever reads indices below `K`. -/

/-- `np.copysign a x`: magnitude of `a` with the sign of `x`
(for `x = 0` the Python float is `+0.0`, giving `+|a|`). -/
def copysign (a x : ℚ) : ℚ :=
  if x < 0 then -|a| else |a|

/-- Difference of consecutive input levels, `L (k+1) - L k`
(the code's `delta_lower`/`delta_upper` at the appropriate indices). -/
def delta (L : ℕ → ℚ) (k : ℕ) : ℚ :=
  L (k + 1) - L k

/-- One-sided slope over the interval `[k, k+1]`
(the code's `slope_lower`/`slope_upper` at the appropriate indices). -/
def slope (L V : ℕ → ℚ) (k : ℕ) : ℚ :=
  (V (k + 1) - V k) / delta L k

/-- `weighted_slope` at the first node (`k = 0`) of a column. -/
def weightedFirst (L V : ℕ → ℚ) : ℚ :=
  slope L V 0 * (1 + delta L 0 / (delta L 0 + delta L 1)) -
    slope L V 1 * delta L 0 / (delta L 0 + delta L 1)

/-- `linear_slope[0]`: derivative estimate at the first node. -/
def linearSlopeFirst (L V : ℕ → ℚ) : ℚ :=
  if weightedFirst L V * slope L V 0 ≤ 0 then 0
  else if |weightedFirst L V| > 2 * |slope L V 0| then 2 * slope L V 0
  else weightedFirst L V

/-- `weighted_slope` at an interior node `k` (`1 ≤ k ≤ K - 2`). -/
def weightedInterior (L V : ℕ → ℚ) (k : ℕ) : ℚ :=
  (slope L V (k - 1) * delta L k + slope L V k * delta L (k - 1)) /
    (delta L (k - 1) + delta L k)

/-- `linear_slope[k]` at an interior node `k`: the Steffen derivative with
its two clamping branches (the two `elif` arms of the code assign the same
expression `copysign(2, slope_lower) * min(|slope_lower|, |slope_upper|)`). -/
def linearSlopeInterior (L V : ℕ → ℚ) (k : ℕ) : ℚ :=
  if slope L V (k - 1) * slope L V k ≤ 0 then 0
  else if |weightedInterior L V k| > 2 * |slope L V (k - 1)| then
    copysign 2 (slope L V (k - 1)) * min |slope L V (k - 1)| |slope L V k|
  else if |weightedInterior L V k| > 2 * |slope L V k| then
    copysign 2 (slope L V (k - 1)) * min |slope L V (k - 1)| |slope L V k|
  else weightedInterior L V k

/-- `weighted_slope` at the last node (`k = K - 1`). -/
def weightedLast (K : ℕ) (L V : ℕ → ℚ) : ℚ :=
  slope L V (K - 2) * (1 + delta L (K - 2) / (delta L (K - 2) + delta L (K - 3))) -
    slope L V (K - 3) * delta L (K - 2) / (delta L (K - 2) + delta L (K - 3))

/-- `linear_slope[K-1]`: derivative estimate at the last node. -/
def linearSlopeLast (K : ℕ) (L V : ℕ → ℚ) : ℚ :=
  if weightedLast K L V * slope L V (K - 2) ≤ 0 then 0
  else if |weightedLast K L V| > 2 * |slope L V (K - 2)| then 2 * slope L V (K - 2)
  else weightedLast K L V

/-- The full `linear_slope` array of `steffen_3d` as a function of the
node index (first node, interior nodes, last node). -/
def linearSlope (K : ℕ) (L V : ℕ → ℚ) (k : ℕ) : ℚ :=
  if k = 0 then linearSlopeFirst L V
  else if k = K - 1 then linearSlopeLast K L V
  else linearSlopeInterior L V k

/-- The `while (k_temp < k_max) and (input_levels[k_temp] < output)` cursor
advance of the output loop, with explicit fuel (the cursor can advance at
most `K` times, so `steffen_3d` passes `K` as fuel). -/
def advanceCursor (K : ℕ) (L : ℕ → ℚ) (o : ℚ) : ℕ → ℕ → ℕ
  | 0, kt => kt
  | fuel + 1, kt =>
    if kt < K ∧ L kt < o then advanceCursor K L o fuel (kt + 1) else kt

/-- Body of the output loop of `steffen_3d` for one output coordinate `o`,
given the already-advanced cursor `kt`: cubic Hermite evaluation inside the
bracket, the lower-extrapolation branch at `kt = 0`, NaN (`none`) otherwise. -/
def evalPoint (K : ℕ) (L V d : ℕ → ℚ) (bound : ℚ) (flag : Bool)
    (o : ℚ) (kt : ℕ) : Option ℚ :=
  if 0 < kt ∧ kt < K then
    let kl := kt - 1
    let dta := L kt - L kl
    let slp := (V kt - V kl) / dta
    let a := (d kl + d kt - 2 * slp) / (dta * dta)
    let b := (3 * slp - 2 * d kl - d kt) / dta
    let c := d kl
    let t := o - L kl
    some (a * (t * t * t) + b * (t * t) + c * t + V kl)
  else if kt = 0 ∧ bound ≤ o then
    if flag then some (V 0 + d 0 * (o - L 0)) else some (V 0)
  else none

/-- The output loop of `steffen_3d`: the cursor `kt` (`k_temp`) persists
across output coordinates, advancing only forward. -/
def steffenLoop (K : ℕ) (L V d : ℕ → ℚ) (bound : ℚ) (flag : Bool) :
    List ℚ → ℕ → List (Option ℚ)
  | [], _ => []
  | o :: rest, kt =>
    let kt' := advanceCursor K L o K kt
    evalPoint K L V d bound flag o kt' :: steffenLoop K L V d bound flag rest kt'

/-- One column of `steffen_3d`: the two monotonicity checks on the first two
level differences (the only differences the code examines), then the output
loop with the Steffen derivative array, cursor starting at `0`. -/
def steffenCol (K : ℕ) (L V : ℕ → ℚ) (outs : List ℚ) (bound : ℚ)
    (flag : Bool) : Except String (List (Option ℚ)) :=
  if L 1 - L 0 < 0 then Except.error "Non-montonic increase in input_levels"
  else if L 2 - L 1 < 0 then Except.error "Non-montonic increase in input_levels"
  else Except.ok (steffenLoop K L V (linearSlope K L V) bound flag outs 0)

/-- Per-point semantics of the output loop: cursor advanced from `0`.
For non-decreasing output coordinates the stateful loop computes exactly
this at every point (`steffenLoop_eq_map` below). -/
def steffenPoint (K : ℕ) (L V : ℕ → ℚ) (bound : ℚ) (flag : Bool) (o : ℚ) :
    Option ℚ :=
  evalPoint K L V (linearSlope K L V) bound flag o (advanceCursor K L o K 0)

/-- The spec's precondition on a column: consecutive input level differences
are (strictly) positive below index `K - 1`, i.e. strictly ascending levels. -/
def StrictAscent (K : ℕ) (L : ℕ → ℚ) : Prop :=
  ∀ k, k + 1 < K → L k < L (k + 1)

lemma StrictAscent.lt {K : ℕ} {L : ℕ → ℚ} (h : StrictAscent K L) :
    ∀ m n, m < n → n < K → L m < L n := by
  intro m n hmn hnK
  induction n with
  | zero => omega
  | succ n ih =>
    rcases Nat.lt_or_ge m n with hm | hm
    · exact lt_trans (ih hm (by omega)) (h n hnK)
    · have : m = n := by omega
      subst this
      exact h m hnK

lemma StrictAscent.le {K : ℕ} {L : ℕ → ℚ} (h : StrictAscent K L) :
    ∀ m n, m ≤ n → n < K → L m ≤ L n := by
  intro m n hmn hnK
  rcases eq_or_lt_of_le hmn with rfl | hlt
  · exact le_refl _
  · exact le_of_lt (h.lt m n hlt hnK)

/-- What the cursor advance computes: starting from `kt ≤ K` with enough
fuel, it lands at a position `c` with `kt ≤ c ≤ K`, every level strictly
below `c` (and at/after `kt`) below `o`, and level `c` (if in range) not
below `o`. -/
lemma advanceCursor_spec (K : ℕ) (L : ℕ → ℚ) (o : ℚ) :
    ∀ (fuel kt : ℕ), kt ≤ K → K - kt ≤ fuel →
      kt ≤ advanceCursor K L o fuel kt ∧ advanceCursor K L o fuel kt ≤ K ∧
      (∀ m, kt ≤ m → m < advanceCursor K L o fuel kt → L m < o) ∧
      (advanceCursor K L o fuel kt < K → ¬ L (advanceCursor K L o fuel kt) < o) := by
  intro fuel
  induction fuel with
  | zero =>
    intro kt hle hfuel
    have hkt : kt = K := by omega
    simp only [advanceCursor]
    refine ⟨le_refl _, hle, ?_, ?_⟩
    · intro m hm1 hm2; omega
    · intro hK; omega
  | succ fuel ih =>
    intro kt hle hfuel
    simp only [advanceCursor]
    by_cases h : kt < K ∧ L kt < o
    · rw [if_pos h]
      obtain ⟨h1, h2⟩ := h
      obtain ⟨a1, a2, a3, a4⟩ := ih (kt + 1) (by omega) (by omega)
      refine ⟨by omega, a2, ?_, a4⟩
      intro m hm1 hm2
      rcases eq_or_lt_of_le hm1 with rfl | hlt
      · exact h2
      · exact a3 m (by omega) hm2
    · rw [if_neg h]
      refine ⟨le_refl _, hle, ?_, ?_⟩
      · intro m hm1 hm2; omega
      · intro hK hL; exact h ⟨hK, hL⟩

/-- The cursor advance is determined by its stopping conditions. -/
lemma advanceCursor_eq (K : ℕ) (L : ℕ → ℚ) (o : ℚ) :
    ∀ (fuel kt c : ℕ), kt ≤ c → c ≤ K → c - kt ≤ fuel →
      (∀ m, kt ≤ m → m < c → L m < o) → (c < K → ¬ L c < o) →
      advanceCursor K L o fuel kt = c := by
  intro fuel
  induction fuel with
  | zero =>
    intro kt c h1 h2 h3 _ _
    have : kt = c := by omega
    simp only [advanceCursor, this]
  | succ fuel ih =>
    intro kt c h1 h2 h3 hall hstop
    simp only [advanceCursor]
    rcases eq_or_lt_of_le h1 with rfl | hlt
    · rw [if_neg]
      rintro ⟨hk, hl⟩
      exact hstop hk hl
    · rw [if_pos ⟨by omega, hall kt (le_refl _) hlt⟩]
      exact ih (kt + 1) c (by omega) h2 (by omega)
        (fun m hm1 hm2 => hall m (by omega) hm2) hstop

/-- The canonical (from-`0`) cursor position, characterised. -/
lemma advanceCursor_zero_eq (K : ℕ) (L : ℕ → ℚ) (o : ℚ) (c : ℕ)
    (h2 : c ≤ K) (hall : ∀ m, m < c → L m < o) (hstop : c < K → ¬ L c < o) :
    advanceCursor K L o K 0 = c :=
  advanceCursor_eq K L o K 0 c (Nat.zero_le _) h2 (by omega)
    (fun m _ hm2 => hall m hm2) hstop

/-- With non-decreasing output coordinates, the stateful forward cursor of
the output loop computes the same result at every point as a cursor started
from `0`: the loop equals a `map` of the per-point semantics. -/
lemma steffenLoop_eq_map (K : ℕ) (L V d : ℕ → ℚ) (bound : ℚ) (flag : Bool) :
    ∀ (outs : List ℚ) (kt : ℕ), outs.Sorted (· ≤ ·) → kt ≤ K →
      (∀ m, m < kt → ∀ o ∈ outs, L m < o) →
      steffenLoop K L V d bound flag outs kt =
        outs.map (fun o => evalPoint K L V d bound flag o (advanceCursor K L o K 0)) := by
  intro outs
  induction outs with
  | nil => intro kt _ _ _; rfl
  | cons o rest ihrest =>
    intro kt hsorted hkt hpre
    obtain ⟨hhead, hrest⟩ := List.sorted_cons.mp hsorted
    obtain ⟨a1, a2, a3, a4⟩ :=
      advanceCursor_spec K L o K 0 (Nat.zero_le _) (by omega)
    set c0 := advanceCursor K L o K 0 with hc0
    have hktc0 : kt ≤ c0 := by
      by_contra hcon
      push_neg at hcon
      exact (a4 (by omega)) (hpre c0 hcon o (List.mem_cons_self o rest))
    have hadv : advanceCursor K L o K kt = c0 :=
      advanceCursor_eq K L o K kt c0 hktc0 a2 (by omega)
        (fun m hm1 hm2 => a3 m (Nat.zero_le _) hm2) a4
    simp only [steffenLoop, List.map_cons, hadv]
    refine congrArg _ ?_
    refine ihrest c0 hrest a2 ?_
    intro m hm o' ho'
    exact lt_of_lt_of_le (a3 m (Nat.zero_le _) hm) (hhead o' ho')

/-- For strictly ascending levels (`K ≥ 3`) the monotonicity checks pass and
one column of `steffen_3d` is the `map` of the per-point semantics over
non-decreasing output coordinates. -/
lemma steffenCol_eq_map (K : ℕ) (L V : ℕ → ℚ) (outs : List ℚ) (bound : ℚ)
    (flag : Bool) (hK : 3 ≤ K) (hasc : StrictAscent K L)
    (hsorted : outs.Sorted (· ≤ ·)) :
    steffenCol K L V outs bound flag =
      Except.ok (outs.map (steffenPoint K L V bound flag)) := by
  have h01 : L 0 < L 1 := hasc 0 (by omega)
  have h12 : L 1 < L 2 := hasc 1 (by omega)
  simp only [steffenCol, steffenPoint]
  rw [if_neg (by linarith), if_neg (by linarith)]
  exact congrArg _ (steffenLoop_eq_map K L V (linearSlope K L V) bound flag
    outs 0 hsorted (Nat.zero_le _) (by intro m hm; omega))

lemma advanceCursor_le_first (K : ℕ) (L : ℕ → ℚ) (o : ℚ) (h : o ≤ L 0) :
    advanceCursor K L o K 0 = 0 :=
  advanceCursor_zero_eq K L o 0 (Nat.zero_le _) (fun m hm => absurd hm (by omega))
    (fun _ hl => absurd hl (not_lt.mpr h))

lemma advanceCursor_gt_last (K : ℕ) (L : ℕ → ℚ) (o : ℚ) (hK : 1 ≤ K)
    (hasc : StrictAscent K L) (h : L (K - 1) < o) :
    advanceCursor K L o K 0 = K :=
  advanceCursor_zero_eq K L o K (le_refl _)
    (fun m hm => lt_of_le_of_lt (hasc.le m (K - 1) (by omega) (by omega)) h)
    (fun h' => absurd h' (lt_irrefl K))

lemma advanceCursor_at_node (K : ℕ) (L : ℕ → ℚ) (hasc : StrictAscent K L)
    (k : ℕ) (hk : k < K) :
    advanceCursor K L (L k) K 0 = k :=
  advanceCursor_zero_eq K L (L k) k (le_of_lt hk)
    (fun m hm => hasc.lt m k hm hk) (fun _ => lt_irrefl (L k))

lemma advanceCursor_between (K : ℕ) (L : ℕ → ℚ) (o : ℚ)
    (hasc : StrictAscent K L) (k : ℕ) (hk : k + 1 < K) (h1 : L k < o)
    (h2 : o ≤ L (k + 1)) :
    advanceCursor K L o K 0 = k + 1 :=
  advanceCursor_zero_eq K L o (k + 1) (by omega)
    (fun m hm => lt_of_le_of_lt (hasc.le m k (by omega) (by omega)) h1)
    (fun _ => not_lt.mpr h2)

/-- **C1** (corrected).  `steffen_3d` raises the MonotonicityViolation
exception for a column exactly when one of the FIRST TWO consecutive level
differences (`L 1 - L 0` or `L 2 - L 1`) is negative; a negative difference
at any later adjacent pair of levels is not examined and does not abort the
column. -/
theorem c1_monotonicity_check_first_two_only (K : ℕ) (L V : ℕ → ℚ)
    (outs : List ℚ) (bound : ℚ) (flag : Bool) :
    (∃ e, steffenCol K L V outs bound flag = Except.error e) ↔
      (L 1 - L 0 < 0 ∨ L 2 - L 1 < 0) := by
  simp only [steffenCol]
  by_cases h1 : L 1 - L 0 < 0
  · simp [h1]
  · by_cases h2 : L 2 - L 1 < 0
    · simp [h1, h2]
    · simp [h1, h2]

/-- **C1** counterexample to the claim as stated: the column
`L = [0, 1, 2, 1]` has a negative consecutive difference at the adjacent
pair `(2, 3)` (`L 3 - L 2 = -1 < 0`), yet `steffen_3d` raises no error and
produces an output value for the column. -/
theorem c1_counterexample :
    (fun k => if k = 3 then 1 else (k : ℚ)) 3 -
        (fun k => if k = 3 then 1 else (k : ℚ)) 2 < 0 ∧
      steffenCol 4 (fun k => if k = 3 then 1 else (k : ℚ)) (fun k => (k : ℚ))
        [1/2] 0 false = Except.ok [some (1/2)] := by
  constructor
  · norm_num
  · norm_num [steffenCol, steffenLoop, advanceCursor, evalPoint, linearSlope,
      linearSlopeFirst, linearSlopeInterior, weightedFirst, weightedInterior,
      slope, delta, copysign]

/-- **C2** (confirmed).  Lower/upper boundary policy of `steffen_3d`:
for a column with strictly ascending levels and non-decreasing output
coordinates, an output coordinate below the first input level yields NaN
when also below the lower-extrapolation boundary, the first input value
exactly when at/above the boundary with the gradient flag off, and the
linear first-derivative extrapolation with the flag on; an output coordinate
above the last input level always yields NaN. -/
theorem c2_boundary_policy (K : ℕ) (L V : ℕ → ℚ) (outs : List ℚ)
    (bound : ℚ) (flag : Bool) (hK : 3 ≤ K) (hasc : StrictAscent K L)
    (hsorted : outs.Sorted (· ≤ ·)) :
    steffenCol K L V outs bound flag =
      Except.ok (outs.map (steffenPoint K L V bound flag)) ∧
    ∀ o ∈ outs,
      (o < L 0 → o < bound → steffenPoint K L V bound flag o = none) ∧
      (o < L 0 → bound ≤ o → flag = false →
        steffenPoint K L V bound flag o = some (V 0)) ∧
      (o < L 0 → bound ≤ o → flag = true →
        steffenPoint K L V bound flag o =
          some (V 0 + linearSlope K L V 0 * (o - L 0))) ∧
      (L (K - 1) < o → steffenPoint K L V bound flag o = none) := by
  refine ⟨steffenCol_eq_map K L V outs bound flag hK hasc hsorted, ?_⟩
  intro o _
  refine ⟨?_, ?_, ?_, ?_⟩
  · intro hlo hb
    rw [steffenPoint, advanceCursor_le_first K L o (le_of_lt hlo), evalPoint]
    rw [if_neg (by omega), if_neg (by rintro ⟨-, h⟩; exact absurd h (not_le.mpr hb))]
  · intro hlo hb hflag
    rw [steffenPoint, advanceCursor_le_first K L o (le_of_lt hlo), evalPoint]
    rw [if_neg (by omega), if_pos ⟨rfl, hb⟩, hflag]
    rfl
  · intro hlo hb hflag
    rw [steffenPoint, advanceCursor_le_first K L o (le_of_lt hlo), evalPoint]
    rw [if_neg (by omega), if_pos ⟨rfl, hb⟩, hflag]
    rfl
  · intro hhi
    rw [steffenPoint, advanceCursor_gt_last K L o (by omega) hasc hhi, evalPoint]
    rw [if_neg (by omega), if_neg (by omega)]

/-- Witness for `c2_boundary_policy` at the column `L = V = [0, 1, 2]`,
outputs `[-2, -1, 5]`, boundary `-1`, gradient flag off: the point below the
boundary is NaN, the point between boundary and first level is `V 0`, the
point above the last level is NaN. -/
theorem c2_boundary_policy_witness :
    steffenPoint 3 (fun k => (k : ℚ)) (fun k => (k : ℚ)) (-1) false (-2) = none ∧
    steffenPoint 3 (fun k => (k : ℚ)) (fun k => (k : ℚ)) (-1) false (-1) = some 0 ∧
    steffenPoint 3 (fun k => (k : ℚ)) (fun k => (k : ℚ)) (-1) false 5 = none := by
  obtain ⟨-, h⟩ := c2_boundary_policy 3 (fun k => (k : ℚ)) (fun k => (k : ℚ))
    [-2, -1, 5] (-1) false (by omega)
    (by intro k _; show ((k : ℚ)) < ((k + 1 : ℕ) : ℚ); exact_mod_cast Nat.lt_succ_self k)
    (by norm_num [List.sorted_cons])
  refine ⟨?_, ?_, ?_⟩
  · exact (h (-2) (by norm_num)).1 (by norm_num) (by norm_num)
  · simpa using (h (-1) (by norm_num)).2.1 (by norm_num) (by norm_num) rfl
  · exact (h 5 (by norm_num)).2.2.2 (by norm_num)

/-- **C3** counterexample to the claim as stated: for the column
`L = [0, 1, 2]`, `V = [1, 1, 1]` with lower-extrapolation boundary `1/2`
strictly above the first level `L 0 = 0`, evaluating at the node coordinate
`L 0 = 0` yields NaN (`none`), not the co-located value `V 0 = 1`: the
output coordinate falls in the `k_temp = 0` branch and fails the
`output ≥ lower_extrapolation_surface` test. -/
theorem c3_node_exactness_counterexample :
    (0 : ℚ) < 1/2 ∧
    steffenCol 3 (fun k => (k : ℚ)) (fun _ => 1) [0] (1/2) false =
      Except.ok [none] ∧
    ((Except.ok [(none : Option ℚ)] : Except String (List (Option ℚ))) ≠
      Except.ok [some ((1 : ℚ))]) := by
  refine ⟨by norm_num, ?_, by simp⟩
  norm_num [steffenCol, steffenLoop, advanceCursor, evalPoint]

/-- **C3** (corrected).  Node exactness of the Steffen interpolation: for a
column with strictly ascending levels (`K ≥ 3`), evaluating at an output
coordinate equal to a node coordinate `L k` returns the co-located value
`V k` exactly — for `k ≥ 1` unconditionally, and for `k = 0` provided the
node coordinate is at or above the lower-extrapolation boundary. -/
theorem c3_node_exactness (K : ℕ) (L V : ℕ → ℚ) (bound : ℚ) (flag : Bool)
    (hK : 3 ≤ K) (hasc : StrictAscent K L) (k : ℕ) (hk : k < K)
    (hb : k = 0 → bound ≤ L 0) :
    steffenPoint K L V bound flag (L k) = some (V k) ∧
    steffenCol K L V [L k] bound flag = Except.ok [some (V k)] := by
  have hpoint : steffenPoint K L V bound flag (L k) = some (V k) := by
    rcases Nat.eq_zero_or_pos k with rfl | hpos
    · simp only [steffenPoint, advanceCursor_at_node K L hasc 0 hk, evalPoint]
      rw [if_neg (by omega), if_pos (⟨trivial, hb rfl⟩ : True ∧ bound ≤ L 0)]
      cases flag <;> simp
    · obtain ⟨j, rfl⟩ : ∃ j, k = j + 1 := ⟨k - 1, by omega⟩
      have hd : L j < L (j + 1) := hasc j hk
      have hdne : L (j + 1) - L j ≠ 0 := sub_ne_zero.mpr (ne_of_gt hd)
      simp only [steffenPoint, advanceCursor_at_node K L hasc (j + 1) hk,
        evalPoint, if_pos (⟨by omega, hk⟩ : 0 < j + 1 ∧ j + 1 < K),
        Nat.add_sub_cancel]
      congr 1
      field_simp
      ring
  refine ⟨hpoint, ?_⟩
  rw [steffenCol_eq_map K L V [L k] bound flag hK hasc (by simp)]
  simp [hpoint]

/-- Witness for `c3_node_exactness` at the column `L = V = [0, 1, 2]`,
node `k = 1`, boundary `0`: evaluation at the node coordinate `1` returns
the node value `1` exactly. -/
theorem c3_node_exactness_witness :
    steffenPoint 3 (fun k => (k : ℚ)) (fun k => (k : ℚ)) 0 false 1 = some 1 := by
  have h := (c3_node_exactness 3 (fun k => (k : ℚ)) (fun k => (k : ℚ)) 0 false
    (by omega)
    (by intro k _; show ((k : ℚ)) < ((k + 1 : ℕ) : ℚ); exact_mod_cast Nat.lt_succ_self k)
    1 (by omega) (fun h0 => absurd h0 (by omega))).1
  simpa using h

/-- **C5** (confirmed).  The derivative estimate of `steffen_3d` at an
interior node `k` (`1 ≤ k ≤ K-2`) of a strictly ascending column: `0` when
the product of the adjacent one-sided slopes is `≤ 0`;
`sign(slope_left) · 2 · min(|slope_left|, |slope_right|)` when the weighted
slope's magnitude exceeds twice either adjacent slope magnitude; the
weighted slope `(slope_left·Δ_right + slope_right·Δ_left)/(Δ_left+Δ_right)`
otherwise. -/
theorem c5_interior_derivative (K : ℕ) (L V : ℕ → ℚ) (k : ℕ)
    (hk1 : 1 ≤ k) (hk2 : k ≤ K - 2) (hK : 3 ≤ K)
    (hdl : 0 < delta L (k - 1)) (hdu : 0 < delta L k) :
    (slope L V (k - 1) * slope L V k ≤ 0 → linearSlope K L V k = 0) ∧
    (0 < slope L V (k - 1) * slope L V k →
      (|weightedInterior L V k| > 2 * |slope L V (k - 1)| ∨
          |weightedInterior L V k| > 2 * |slope L V k| →
        linearSlope K L V k =
          (if 0 < slope L V (k - 1) then 1 else -1) * 2 *
            min |slope L V (k - 1)| |slope L V k|)) ∧
    (0 < slope L V (k - 1) * slope L V k →
      |weightedInterior L V k| ≤ 2 * |slope L V (k - 1)| →
      |weightedInterior L V k| ≤ 2 * |slope L V k| →
      linearSlope K L V k = weightedInterior L V k) := by
  have hne0 : ¬ k = 0 := by omega
  have hneK : ¬ k = K - 1 := by omega
  simp only [linearSlope, if_neg hne0, if_neg hneK, linearSlopeInterior]
  refine ⟨?_, ?_, ?_⟩
  · intro hprod
    rw [if_pos hprod]
  · intro hprod hdisj
    rw [if_neg (not_le.mpr hprod)]
    have hsl : slope L V (k - 1) ≠ 0 := by
      intro h0
      rw [h0, zero_mul] at hprod
      exact lt_irrefl 0 hprod
    have hcs : copysign 2 (slope L V (k - 1)) =
        (if 0 < slope L V (k - 1) then 1 else -1) * 2 := by
      rcases lt_or_gt_of_ne hsl with hneg | hposl
      · rw [copysign, if_pos hneg, if_neg (not_lt.mpr (le_of_lt hneg))]
        norm_num
      · rw [copysign, if_neg (not_lt.mpr (le_of_lt hposl)), if_pos hposl]
        norm_num
    rcases hdisj with h2 | h3
    · rw [if_pos h2, hcs]
    · by_cases h2 : |weightedInterior L V k| > 2 * |slope L V (k - 1)|
      · rw [if_pos h2, hcs]
      · rw [if_neg h2, if_pos h3, hcs]
  · intro hprod hle1 hle2
    rw [if_neg (not_le.mpr hprod), if_neg (not_lt.mpr hle1),
      if_neg (not_lt.mpr hle2)]

/-- Witness for `c5_interior_derivative` at `K = 3`, `k = 1`,
`L = V = [0, 1, 2]`: both one-sided slopes are `1`, the weighted slope is
`1`, no clamping occurs, and the derivative equals the weighted slope. -/
theorem c5_interior_derivative_witness :
    linearSlope 3 (fun k => (k : ℚ)) (fun k => (k : ℚ)) 1 =
      weightedInterior (fun k => (k : ℚ)) (fun k => (k : ℚ)) 1 := by
  have h := c5_interior_derivative 3 (fun k => (k : ℚ)) (fun k => (k : ℚ)) 1
    (by omega) (by omega) (by omega) (by norm_num [delta]) (by norm_num [delta])
  exact h.2.2 (by norm_num [slope, delta])
    (by norm_num [weightedInterior, slope, delta])
    (by norm_num [weightedInterior, slope, delta])

/-- The endpoint derivative construction (first and last node) always lies
between `0` and twice the adjacent one-sided slope. -/
lemma endpoint_clamp_bounds (w s : ℚ) :
    min 0 (2 * s) ≤ (if w * s ≤ 0 then 0 else if |w| > 2 * |s| then 2 * s else w) ∧
      (if w * s ≤ 0 then 0 else if |w| > 2 * |s| then 2 * s else w) ≤ max 0 (2 * s) := by
  by_cases h1 : w * s ≤ 0
  · rw [if_pos h1]
    exact ⟨min_le_left _ _, le_max_left _ _⟩
  · rw [if_neg h1]
    push_neg at h1
    by_cases h2 : |w| > 2 * |s|
    · rw [if_pos h2]
      exact ⟨min_le_right _ _, le_max_right _ _⟩
    · rw [if_neg h2]
      push_neg at h2
      rcases lt_trichotomy s 0 with hs | hs | hs
      · have hw : w < 0 := by nlinarith
        rw [abs_of_neg hs, abs_of_neg hw] at h2
        constructor
        · rw [min_eq_right (by linarith : 2 * s ≤ (0 : ℚ))]
          linarith
        · exact le_trans (le_of_lt hw) (le_max_left _ _)
      · exfalso
        rw [hs, mul_zero] at h1
        exact lt_irrefl 0 h1
      · have hw : 0 < w := by nlinarith
        rw [abs_of_pos hs, abs_of_pos hw] at h2
        constructor
        · exact le_trans (min_le_left _ _) (le_of_lt hw)
        · rw [max_eq_right (by linarith : (0 : ℚ) ≤ 2 * s)]
          linarith

lemma linearSlopeFirst_bounds (L V : ℕ → ℚ) :
    min 0 (2 * slope L V 0) ≤ linearSlopeFirst L V ∧
      linearSlopeFirst L V ≤ max 0 (2 * slope L V 0) := by
  unfold linearSlopeFirst
  exact endpoint_clamp_bounds (weightedFirst L V) (slope L V 0)

lemma linearSlopeLast_bounds (K : ℕ) (L V : ℕ → ℚ) :
    min 0 (2 * slope L V (K - 2)) ≤ linearSlopeLast K L V ∧
      linearSlopeLast K L V ≤ max 0 (2 * slope L V (K - 2)) := by
  unfold linearSlopeLast
  exact endpoint_clamp_bounds (weightedLast K L V) (slope L V (K - 2))

/-- The interior derivative construction lies between `0` and twice EACH of
the two adjacent one-sided slopes (Steffen's key clamping property). -/
lemma interior_clamp_bounds (sl su w dl du : ℚ) (hdl : 0 < dl) (hdu : 0 < du)
    (hw : w = (sl * du + su * dl) / (dl + du)) :
    (min 0 (2 * sl) ≤
        (if sl * su ≤ 0 then 0
          else if |w| > 2 * |sl| then copysign 2 sl * min |sl| |su|
          else if |w| > 2 * |su| then copysign 2 sl * min |sl| |su|
          else w) ∧
      (if sl * su ≤ 0 then 0
          else if |w| > 2 * |sl| then copysign 2 sl * min |sl| |su|
          else if |w| > 2 * |su| then copysign 2 sl * min |sl| |su|
          else w) ≤ max 0 (2 * sl)) ∧
    (min 0 (2 * su) ≤
        (if sl * su ≤ 0 then 0
          else if |w| > 2 * |sl| then copysign 2 sl * min |sl| |su|
          else if |w| > 2 * |su| then copysign 2 sl * min |sl| |su|
          else w) ∧
      (if sl * su ≤ 0 then 0
          else if |w| > 2 * |sl| then copysign 2 sl * min |sl| |su|
          else if |w| > 2 * |su| then copysign 2 sl * min |sl| |su|
          else w) ≤ max 0 (2 * su)) := by
  by_cases h1 : sl * su ≤ 0
  · rw [if_pos h1]
    exact ⟨⟨min_le_left _ _, le_max_left _ _⟩, min_le_left _ _, le_max_left _ _⟩
  · push_neg at h1
    rw [if_neg (not_le.mpr h1)]
    rcases mul_pos_iff.mp h1 with ⟨hp1, hp2⟩ | ⟨hn1, hn2⟩
    · have hcs : copysign 2 sl = 2 := by
        rw [copysign, if_neg (not_lt.mpr (le_of_lt hp1))]
        norm_num
      have habs : min |sl| |su| = min sl su := by
        rw [abs_of_pos hp1, abs_of_pos hp2]
      have h1l : min sl su ≤ sl := min_le_left _ _
      have h1r : min sl su ≤ su := min_le_right _ _
      have h0m : 0 < min sl su := lt_min hp1 hp2
      have hclamp :
          (min 0 (2 * sl) ≤ copysign 2 sl * min |sl| |su| ∧
            copysign 2 sl * min |sl| |su| ≤ max 0 (2 * sl)) ∧
          (min 0 (2 * su) ≤ copysign 2 sl * min |sl| |su| ∧
            copysign 2 sl * min |sl| |su| ≤ max 0 (2 * su)) := by
        rw [hcs, habs]
        refine ⟨⟨?_, ?_⟩, ?_, ?_⟩
        · exact le_trans (min_le_left _ _) (by linarith)
        · rw [max_eq_right (by linarith : (0 : ℚ) ≤ 2 * sl)]
          linarith
        · exact le_trans (min_le_left _ _) (by linarith)
        · rw [max_eq_right (by linarith : (0 : ℚ) ≤ 2 * su)]
          linarith
      by_cases h2 : |w| > 2 * |sl|
      · rw [if_pos h2]
        exact hclamp
      · rw [if_neg h2]
        by_cases h3 : |w| > 2 * |su|
        · rw [if_pos h3]
          exact hclamp
        · rw [if_neg h3]
          push_neg at h2 h3
          have hwpos : 0 < w := by
            rw [hw]
            exact div_pos (by nlinarith) (by linarith)
          rw [abs_of_pos hp1] at h2
          rw [abs_of_pos hp2] at h3
          have hwle : w ≤ |w| := le_abs_self w
          refine ⟨⟨?_, ?_⟩, ?_, ?_⟩
          · exact le_trans (min_le_left _ _) (le_of_lt hwpos)
          · rw [max_eq_right (by linarith : (0 : ℚ) ≤ 2 * sl)]
            linarith
          · exact le_trans (min_le_left _ _) (le_of_lt hwpos)
          · rw [max_eq_right (by linarith : (0 : ℚ) ≤ 2 * su)]
            linarith
    · have hcs : copysign 2 sl = -2 := by
        rw [copysign, if_pos hn1]
        norm_num
      have habs : min |sl| |su| = min (-sl) (-su) := by
        rw [abs_of_neg hn1, abs_of_neg hn2]
      have h1l : min (-sl) (-su) ≤ -sl := min_le_left _ _
      have h1r : min (-sl) (-su) ≤ -su := min_le_right _ _
      have h0m : 0 < min (-sl) (-su) := lt_min (by linarith) (by linarith)
      have hclamp :
          (min 0 (2 * sl) ≤ copysign 2 sl * min |sl| |su| ∧
            copysign 2 sl * min |sl| |su| ≤ max 0 (2 * sl)) ∧
          (min 0 (2 * su) ≤ copysign 2 sl * min |sl| |su| ∧
            copysign 2 sl * min |sl| |su| ≤ max 0 (2 * su)) := by
        rw [hcs, habs]
        refine ⟨⟨?_, ?_⟩, ?_, ?_⟩
        · rw [min_eq_right (by linarith : 2 * sl ≤ (0 : ℚ))]
          linarith
        · exact le_trans (by linarith) (le_max_left 0 (2 * sl))
        · rw [min_eq_right (by linarith : 2 * su ≤ (0 : ℚ))]
          linarith
        · exact le_trans (by linarith) (le_max_left 0 (2 * su))
      by_cases h2 : |w| > 2 * |sl|
      · rw [if_pos h2]
        exact hclamp
      · rw [if_neg h2]
        by_cases h3 : |w| > 2 * |su|
        · rw [if_pos h3]
          exact hclamp
        · rw [if_neg h3]
          push_neg at h2 h3
          have hwneg : w < 0 := by
            rw [hw]
            exact div_neg_of_neg_of_pos (by nlinarith) (by linarith)
          rw [abs_of_neg hn1] at h2
          rw [abs_of_neg hn2] at h3
          have hwge : -|w| ≤ w := neg_abs_le w
          refine ⟨⟨?_, ?_⟩, ?_, ?_⟩
          · rw [min_eq_right (by linarith : 2 * sl ≤ (0 : ℚ))]
            linarith
          · exact le_trans (le_of_lt hwneg) (le_max_left _ _)
          · rw [min_eq_right (by linarith : 2 * su ≤ (0 : ℚ))]
            linarith
          · exact le_trans (le_of_lt hwneg) (le_max_left _ _)

lemma linearSlopeInterior_bounds (L V : ℕ → ℚ) (m : ℕ)
    (hdl : 0 < delta L (m - 1)) (hdu : 0 < delta L m) :
    (min 0 (2 * slope L V (m - 1)) ≤ linearSlopeInterior L V m ∧
      linearSlopeInterior L V m ≤ max 0 (2 * slope L V (m - 1))) ∧
    (min 0 (2 * slope L V m) ≤ linearSlopeInterior L V m ∧
      linearSlopeInterior L V m ≤ max 0 (2 * slope L V m)) := by
  unfold linearSlopeInterior
  exact interior_clamp_bounds (slope L V (m - 1)) (slope L V m)
    (weightedInterior L V m) (delta L (m - 1)) (delta L m) hdl hdu
    (by rw [weightedInterior])

/-- Bounds on the node derivative at the LOWER node of interval `k`,
relative to that interval's slope. -/
lemma linearSlope_bound_lower (K : ℕ) (L V : ℕ → ℚ) (hK : 3 ≤ K)
    (hasc : StrictAscent K L) (k : ℕ) (hk : k + 1 < K) :
    min 0 (2 * slope L V k) ≤ linearSlope K L V k ∧
      linearSlope K L V k ≤ max 0 (2 * slope L V k) := by
  rcases Nat.eq_zero_or_pos k with rfl | hpos
  · rw [linearSlope, if_pos rfl]
    exact linearSlopeFirst_bounds L V
  · have hne0 : ¬ k = 0 := by omega
    have hneK : ¬ k = K - 1 := by omega
    rw [linearSlope, if_neg hne0, if_neg hneK]
    have hdl : 0 < delta L (k - 1) := by
      have h := hasc (k - 1) (by omega)
      have hk1 : k - 1 + 1 = k := by omega
      rw [hk1] at h
      rw [delta, hk1]
      linarith
    have hdu : 0 < delta L k := by
      rw [delta]
      linarith [hasc k hk]
    exact (linearSlopeInterior_bounds L V k hdl hdu).2

/-- Bounds on the node derivative at the UPPER node of interval `k`,
relative to that interval's slope. -/
lemma linearSlope_bound_upper (K : ℕ) (L V : ℕ → ℚ) (hK : 3 ≤ K)
    (hasc : StrictAscent K L) (k : ℕ) (hk : k + 1 < K) :
    min 0 (2 * slope L V k) ≤ linearSlope K L V (k + 1) ∧
      linearSlope K L V (k + 1) ≤ max 0 (2 * slope L V k) := by
  by_cases hlast : k + 1 = K - 1
  · rw [linearSlope, if_neg (by omega), if_pos hlast]
    have hK2 : K - 2 = k := by omega
    have h := linearSlopeLast_bounds K L V
    rw [hK2] at h
    exact h
  · rw [linearSlope, if_neg (by omega), if_neg hlast]
    have hdl : 0 < delta L (k + 1 - 1) := by
      simp only [Nat.add_sub_cancel]
      rw [delta]
      linarith [hasc k hk]
    have hdu : 0 < delta L (k + 1) := by
      rw [delta]
      linarith [hasc (k + 1) (by omega)]
    have h := (linearSlopeInterior_bounds L V (k + 1) hdl hdu).1
    simpa only [Nat.add_sub_cancel] using h

/-- Cancel a positive square factor in a nonnegativity fact. -/
lemma nonneg_of_mul_sq {x d : ℚ} (hd : 0 < d) (h : 0 ≤ x * (d * d)) : 0 ≤ x := by
  by_contra hx
  push_neg at hx
  exact absurd h (not_le.mpr (mul_neg_of_neg_of_pos hx (mul_pos hd hd)))

/-- Cancel a positive square factor in a nonpositivity fact. -/
lemma nonpos_of_mul_sq {x d : ℚ} (hd : 0 < d) (h : x * (d * d) ≤ 0) : x ≤ 0 := by
  by_contra hx
  push_neg at hx
  exact absurd h (not_le.mpr (mul_pos hx (mul_pos hd hd)))

/-- Range of the cubic Hermite segment built by `steffen_3d`: when both
endpoint derivatives lie between `0` and twice the secant slope, the value
at any offset `t ∈ [0, δ]` lies between the endpoint values.  Proved via the
Bernstein expansions
`(P - Vlo)·δ² = dlo·t·(δ-t)² + (3s-dhi)·t²·(δ-t) + s·t³` and
`(Vhi - P)·δ² = s·(δ-t)³ + (3s-dlo)·t·(δ-t)² + dhi·t²·(δ-t)`. -/
lemma hermite_range (Vlo Vhi dlo dhi dta t s : ℚ) (hd : 0 < dta)
    (hs : Vhi - Vlo = s * dta) (ht0 : 0 ≤ t) (ht1 : t ≤ dta)
    (hlo1 : min 0 (2 * s) ≤ dlo) (hlo2 : dlo ≤ max 0 (2 * s))
    (hhi1 : min 0 (2 * s) ≤ dhi) (hhi2 : dhi ≤ max 0 (2 * s)) :
    min Vlo Vhi ≤
        ((dlo + dhi - 2 * s) / (dta * dta)) * (t * t * t) +
          ((3 * s - 2 * dlo - dhi) / dta) * (t * t) + dlo * t + Vlo ∧
      ((dlo + dhi - 2 * s) / (dta * dta)) * (t * t * t) +
          ((3 * s - 2 * dlo - dhi) / dta) * (t * t) + dlo * t + Vlo ≤
        max Vlo Vhi := by
  have hdne : dta ≠ 0 := ne_of_gt hd
  set P := ((dlo + dhi - 2 * s) / (dta * dta)) * (t * t * t) +
    ((3 * s - 2 * dlo - dhi) / dta) * (t * t) + dlo * t + Vlo with hP
  have h1 : (P - Vlo) * (dta * dta) =
      dlo * t * (dta - t) ^ 2 + (3 * s - dhi) * (t * t) * (dta - t) +
        s * (t * t * t) := by
    rw [hP]
    field_simp
    ring
  have h2 : (Vhi - P) * (dta * dta) =
      s * (dta - t) ^ 3 + (3 * s - dlo) * t * (dta - t) ^ 2 +
        dhi * (t * t) * (dta - t) := by
    have hV : Vhi = Vlo + s * dta := by linarith
    rw [hP, hV]
    field_simp
    ring
  have hdd : 0 < dta * dta := mul_pos hd hd
  have hts : 0 ≤ dta - t := by linarith
  rcases le_or_lt 0 s with hspos | hsneg
  · have hVle : Vlo ≤ Vhi := by nlinarith
    rw [min_eq_left hVle, max_eq_right hVle]
    rw [min_eq_left (by linarith : (0 : ℚ) ≤ 2 * s)] at hlo1 hhi1
    rw [max_eq_right (by linarith : (0 : ℚ) ≤ 2 * s)] at hlo2 hhi2
    constructor
    · have t1 : 0 ≤ dlo * t * (dta - t) ^ 2 :=
        mul_nonneg (mul_nonneg hlo1 ht0) (sq_nonneg _)
      have t2 : 0 ≤ (3 * s - dhi) * (t * t) * (dta - t) :=
        mul_nonneg (mul_nonneg (by linarith) (mul_nonneg ht0 ht0)) hts
      have t3 : 0 ≤ s * (t * t * t) :=
        mul_nonneg hspos (mul_nonneg (mul_nonneg ht0 ht0) ht0)
      have hsum : 0 ≤ (P - Vlo) * (dta * dta) := by
        rw [h1]
        linarith
      have := nonneg_of_mul_sq hd hsum
      linarith
    · have t1 : 0 ≤ s * (dta - t) ^ 3 :=
        mul_nonneg hspos (pow_nonneg hts 3)
      have t2 : 0 ≤ (3 * s - dlo) * t * (dta - t) ^ 2 :=
        mul_nonneg (mul_nonneg (by linarith) ht0) (sq_nonneg _)
      have t3 : 0 ≤ dhi * (t * t) * (dta - t) :=
        mul_nonneg (mul_nonneg hhi1 (mul_nonneg ht0 ht0)) hts
      have hsum : 0 ≤ (Vhi - P) * (dta * dta) := by
        rw [h2]
        linarith
      have := nonneg_of_mul_sq hd hsum
      linarith
  · have hVlt : Vhi < Vlo := by nlinarith
    rw [min_eq_right (le_of_lt hVlt), max_eq_left (le_of_lt hVlt)]
    rw [min_eq_right (by linarith : 2 * s ≤ (0 : ℚ))] at hlo1 hhi1
    rw [max_eq_left (by linarith : 2 * s ≤ (0 : ℚ))] at hlo2 hhi2
    constructor
    · have t1 : s * (dta - t) ^ 3 ≤ 0 :=
        mul_nonpos_of_nonpos_of_nonneg (le_of_lt hsneg) (pow_nonneg hts 3)
      have t2 : (3 * s - dlo) * t * (dta - t) ^ 2 ≤ 0 :=
        mul_nonpos_of_nonpos_of_nonneg
          (mul_nonpos_of_nonpos_of_nonneg (by linarith) ht0) (sq_nonneg _)
      have t3 : dhi * (t * t) * (dta - t) ≤ 0 :=
        mul_nonpos_of_nonpos_of_nonneg
          (mul_nonpos_of_nonpos_of_nonneg hhi2 (mul_nonneg ht0 ht0)) hts
      have hsum : (Vhi - P) * (dta * dta) ≤ 0 := by
        rw [h2]
        linarith
      have := nonpos_of_mul_sq hd hsum
      linarith
    · have t1 : dlo * t * (dta - t) ^ 2 ≤ 0 :=
        mul_nonpos_of_nonpos_of_nonneg
          (mul_nonpos_of_nonpos_of_nonneg hlo2 ht0) (sq_nonneg _)
      have t2 : (3 * s - dhi) * (t * t) * (dta - t) ≤ 0 :=
        mul_nonpos_of_nonpos_of_nonneg
          (mul_nonpos_of_nonpos_of_nonneg (by linarith) (mul_nonneg ht0 ht0)) hts
      have t3 : s * (t * t * t) ≤ 0 :=
        mul_nonpos_of_nonpos_of_nonneg (le_of_lt hsneg)
          (mul_nonneg (mul_nonneg ht0 ht0) ht0)
      have hsum : (P - Vlo) * (dta * dta) ≤ 0 := by
        rw [h1]
        linarith
      have := nonpos_of_mul_sq hd hsum
      linarith

/-- **C4** (confirmed).  Shape preservation of the Steffen interpolation:
for a column with strictly ascending levels and non-decreasing output
coordinates, the interpolated value at an output coordinate strictly between
two adjacent nodes lies between the two node values — it exceeds neither
endpoint value (no overshoot). -/
theorem c4_shape_preservation (K : ℕ) (L V : ℕ → ℚ) (outs : List ℚ)
    (bound : ℚ) (flag : Bool) (hK : 3 ≤ K) (hasc : StrictAscent K L)
    (hsorted : outs.Sorted (· ≤ ·)) (o : ℚ) (ho : o ∈ outs) (k : ℕ)
    (hk : k + 1 < K) (h1 : L k < o) (h2 : o < L (k + 1)) :
    steffenCol K L V outs bound flag =
      Except.ok (outs.map (steffenPoint K L V bound flag)) ∧
    ∃ r, steffenPoint K L V bound flag o = some r ∧
      min (V k) (V (k + 1)) ≤ r ∧ r ≤ max (V k) (V (k + 1)) := by
  refine ⟨steffenCol_eq_map K L V outs bound flag hK hasc hsorted, ?_⟩
  have hadv : advanceCursor K L o K 0 = k + 1 :=
    advanceCursor_between K L o hasc k hk h1 (le_of_lt h2)
  have hd : L k < L (k + 1) := hasc k hk
  have hdpos : 0 < L (k + 1) - L k := by linarith
  have hdne : L (k + 1) - L k ≠ 0 := ne_of_gt hdpos
  have heq : slope L V k = (V (k + 1) - V k) / (L (k + 1) - L k) := by
    rw [slope, delta]
  have hlo := linearSlope_bound_lower K L V hK hasc k hk
  have hhi := linearSlope_bound_upper K L V hK hasc k hk
  rw [heq] at hlo hhi
  have hs : V (k + 1) - V k =
      (V (k + 1) - V k) / (L (k + 1) - L k) * (L (k + 1) - L k) :=
    (div_mul_cancel₀ _ hdne).symm
  have hres := hermite_range (V k) (V (k + 1)) (linearSlope K L V k)
    (linearSlope K L V (k + 1)) (L (k + 1) - L k) (o - L k)
    ((V (k + 1) - V k) / (L (k + 1) - L k))
    hdpos hs (by linarith) (by linarith) hlo.1 hlo.2 hhi.1 hhi.2
  simp only [steffenPoint, hadv, evalPoint,
    if_pos (⟨Nat.succ_pos k, hk⟩ : 0 < k + 1 ∧ k + 1 < K), Nat.add_sub_cancel]
  exact ⟨_, rfl, hres.1, hres.2⟩

/-- Witness for `c4_shape_preservation` on the column `L = [0, 1, 2]`,
`V = [0, 1, 0]`, output coordinate `1/2` strictly inside the interval
`(L 0, L 1)`. -/
theorem c4_shape_preservation_witness :
    ∃ r, steffenPoint 3 (fun k => (k : ℚ))
        (fun k => if k = 1 then (1 : ℚ) else 0) (-1) false (1/2) = some r ∧
      (0 : ℚ) ≤ r ∧ r ≤ 1 := by
  obtain ⟨-, r, hr, hb1, hb2⟩ := c4_shape_preservation 3 (fun k => (k : ℚ))
    (fun k => if k = 1 then (1 : ℚ) else 0) [1/2] (-1) false (by omega)
    (by intro k _; show ((k : ℚ)) < ((k + 1 : ℕ) : ℚ); exact_mod_cast Nat.lt_succ_self k)
    (by simp) (1/2) (by simp) 0 (by omega) (by norm_num) (by norm_num)
  refine ⟨r, hr, ?_, ?_⟩
  · simpa using hb1
  · simpa using hb2

/-! ## Hydrostatic integration (`calculate_heights_and_pressures`), per
column, over `ℝ` (the integration uses `np.log`, so this part of the
embedding is necessarily non-executable). -/

/-- ECMWF gas constant of dry air (module constant `rd`). -/
noncomputable def rd : ℝ := 287.06

/-- Gravitational acceleration (module constant `rg`). -/
noncomputable def rg : ℝ := 9.80665

/-- Virtual-temperature coefficient (module constant
`rv_over_rd_minus_one`). -/
noncomputable def rv_over_rd_minus_one : ℝ := 0.609133

/-- Half-level pressure of a column: `p_h[k] = a_coeffs[k] + b_coeffs[k]·p_s`
for the levels above the surface (`k ≤ K - 2`); the surface half level
`k = K - 1` is set directly to the surface pressure `p_s`. -/
noncomputable def p_h (K : ℕ) (a b : ℕ → ℝ) (p_s : ℝ) (k : ℕ) : ℝ :=
  if k = K - 1 then p_s else a k + b k * p_s

/-- Virtual-temperature scale height `tvrd_over_rg` at level `k`:
`(rd/rg)·T[k]·(1 + rv_over_rd_minus_one·q[k])`. -/
noncomputable def tvrd_over_rg (t_field q_field : ℕ → ℝ) (k : ℕ) : ℝ :=
  rd / rg * t_field k * (1 + rv_over_rd_minus_one * q_field k)

/-- The carried half-level height after `m` iterations of the
`for k in range(k_max - 2, -1, -1)` loop, i.e. the half-level height at
level `K - 1 - m`: the loop starts at the surface
(`height_h[K-1] = z_s`) and integrates upward with
`height_h[k] = height_h[k+1] + tvrd_over_rg·log(p_h[k+1]/p_h[k])`. -/
noncomputable def height_h_aux (K : ℕ) (a b : ℕ → ℝ) (p_s z_s : ℝ)
    (t_field q_field : ℕ → ℝ) : ℕ → ℝ
  | 0 => z_s
  | m + 1 =>
    height_h_aux K a b p_s z_s t_field q_field m +
      tvrd_over_rg t_field q_field (K - 1 - (m + 1)) *
        Real.log (p_h K a b p_s (K - 1 - m) / p_h K a b p_s (K - 1 - (m + 1)))

/-- Half-level height at level `k` of a column (meaningful for
`k ≤ K - 1`). -/
noncomputable def height_h (K : ℕ) (a b : ℕ → ℝ) (p_s z_s : ℝ)
    (t_field q_field : ℕ → ℝ) (k : ℕ) : ℝ :=
  height_h_aux K a b p_s z_s t_field q_field (K - 1 - k)

/-- **C6** (confirmed).  `calculate_heights_and_pressures` sets the surface
half-level pressure to the supplied surface pressure and the surface
half-level height to the supplied surface height, exactly. -/
theorem c6_surface_boundary (K : ℕ) (a b : ℕ → ℝ) (p_s z_s : ℝ)
    (t_field q_field : ℕ → ℝ) :
    height_h K a b p_s z_s t_field q_field (K - 1) = z_s ∧
    p_h K a b p_s (K - 1) = p_s := by
  constructor
  · rw [height_h, Nat.sub_self]
    rfl
  · rw [p_h, if_pos rfl]

/-- Closed form of the upward integration for an isothermal dry column
(`T = 250 K`, `q = 0`) with surface pressure `100000 Pa` and surface height
`0 m`: the carried height after `m` steps is
`(rd·250/rg)·ln(100000 / p_h[K-1-m])`. -/
lemma height_h_aux_isothermal (K : ℕ) (a b : ℕ → ℝ)
    (hpos : ∀ j, j ≤ K - 1 → 0 < p_h K a b 100000 j) :
    ∀ m, m ≤ K - 1 →
      height_h_aux K a b 100000 0 (fun _ => 250) (fun _ => 0) m =
        rd * 250 / rg * Real.log (100000 / p_h K a b 100000 (K - 1 - m)) := by
  intro m
  induction m with
  | zero =>
    intro _
    have hp : p_h K a b 100000 (K - 1 - 0) = 100000 := by
      rw [Nat.sub_zero, p_h, if_pos rfl]
    rw [height_h_aux, hp]
    rw [div_self (by norm_num : (100000 : ℝ) ≠ 0), Real.log_one, mul_zero]
  | succ m ih =>
    intro hm1
    have htv : tvrd_over_rg (fun _ => (250 : ℝ)) (fun _ => 0) (K - 1 - (m + 1)) =
        rd * 250 / rg := by
      rw [tvrd_over_rg]
      ring
    have hp1 : 0 < p_h K a b 100000 (K - 1 - m) := hpos _ (by omega)
    have hp2 : 0 < p_h K a b 100000 (K - 1 - (m + 1)) := hpos _ (by omega)
    rw [height_h_aux, ih (by omega), htv,
      Real.log_div (ne_of_gt hp1) (ne_of_gt hp2),
      Real.log_div (by norm_num) (ne_of_gt hp1),
      Real.log_div (by norm_num) (ne_of_gt hp2)]
    ring

/-- **C7** (confirmed).  Isothermal hydrostatic check: in a column with
constant `T = 250 K`, `q = 0`, surface pressure `100000 Pa` and surface
height `0 m` (and positive half-level pressures), the reconstructed height
at every half level `k` equals `(rd·T/rg)·ln(100000 / p_h[k])` exactly. -/
theorem c7_isothermal_heights (K : ℕ) (a b : ℕ → ℝ) (k : ℕ) (hk : k ≤ K - 1)
    (hpos : ∀ j, j ≤ K - 1 → 0 < p_h K a b 100000 j) :
    height_h K a b 100000 0 (fun _ => 250) (fun _ => 0) k =
      rd * 250 / rg * Real.log (100000 / p_h K a b 100000 k) := by
  rw [height_h, height_h_aux_isothermal K a b hpos (K - 1 - k) (by omega)]
  have hidx : K - 1 - (K - 1 - k) = k := by omega
  rw [hidx]

/-- Witness for `c7_isothermal_heights`: two levels, `a = [50000, ...]`,
`b = [0, ...]`, so `p_h = [50000, 100000]`; the height at level `0` is the
isothermal scale height times `ln 2`. -/
theorem c7_isothermal_heights_witness :
    height_h 2 (fun _ => (50000 : ℝ)) (fun _ => 0) 100000 0
        (fun _ => 250) (fun _ => 0) 0 =
      rd * 250 / rg *
        Real.log (100000 / p_h 2 (fun _ => (50000 : ℝ)) (fun _ => 0) 100000 0) := by
  refine c7_isothermal_heights 2 (fun _ => 50000) (fun _ => 0) 0 (by omega) ?_
  intro j hj
  have hj1 : j ≤ 1 := by omega
  interval_cases j <;> norm_num [p_h]

/-- **C8** (corrected).  The half-level pressures of
`calculate_heights_and_pressures` depend only on the coefficient table and
the surface pressure (temperature and humidity play no role), and they
increase monotonically from top to surface EXACTLY when every consecutive
affine difference is positive and the surface pressure exceeds the last
coefficient pair's value `a[K-2] + b[K-2]·p_s`; for an arbitrary positive
surface pressure this can fail even with `b` non-decreasing. -/
theorem c8_monotone_pressure_iff (K : ℕ) (a b : ℕ → ℝ) (p_s : ℝ)
    (hK : 2 ≤ K) :
    (∀ k, k + 1 < K → p_h K a b p_s k < p_h K a b p_s (k + 1)) ↔
      ((∀ k, k + 2 < K → a k + b k * p_s < a (k + 1) + b (k + 1) * p_s) ∧
        a (K - 2) + b (K - 2) * p_s < p_s) := by
  constructor
  · intro h
    constructor
    · intro k hk
      have hh := h k (by omega)
      rw [p_h, if_neg (by omega), p_h, if_neg (by omega)] at hh
      exact hh
    · have hh := h (K - 2) (by omega)
      have hidx : K - 2 + 1 = K - 1 := by omega
      rw [p_h, if_neg (by omega), hidx, p_h, if_pos rfl] at hh
      exact hh
  · rintro ⟨h1, h2⟩ k hk
    by_cases hks : k + 1 = K - 1
    · rw [p_h, if_neg (by omega), p_h, if_pos hks]
      have hkk : k = K - 2 := by omega
      rw [hkk]
      exact h2
    · rw [p_h, if_neg (by omega), p_h, if_neg hks]
      exact h1 k (by omega)

/-- Witness for `c8_monotone_pressure_iff` at `K = 2`, `a = 0`, `b = 1/2`,
`p_s = 1`: the single pressure step `1/2 < 1` is equivalent to the affine
condition, and holds. -/
theorem c8_monotone_pressure_iff_witness :
    p_h 2 (fun _ => (0 : ℝ)) (fun _ => 1/2) 1 0 <
      p_h 2 (fun _ => (0 : ℝ)) (fun _ => 1/2) 1 1 := by
  have h := (c8_monotone_pressure_iff 2 (fun _ => (0 : ℝ)) (fun _ => 1/2) 1
    (by omega)).mpr ⟨fun k hk => absurd hk (by omega), by norm_num⟩
  exact h 0 (by omega)

/-- **C8** counterexample to the claim as stated: a coefficient table with
`b` non-decreasing from top to surface (the spec's stated invariant for the
table, whose numeric file is not part of the sources), a physically valid
column (`T = 250 > 0`, `q = 0 ≥ 0`, `p_surf = 1000 > 0`), and yet the
half-level pressures are NOT monotonically increasing:
`p_h = [5000, 10200, 2900, 1000]` decreases from level 1 to level 2. -/
theorem c8_counterexample :
    (0 : ℝ) < 250 ∧ (0 : ℝ) ≤ 0 ∧ (0 : ℝ) < 1000 ∧
    (fun k => if k = 0 then (0 : ℝ) else if k = 1 then 1/5
      else if k = 2 then 9/10 else 1) 0 ≤
      (fun k => if k = 0 then (0 : ℝ) else if k = 1 then 1/5
        else if k = 2 then 9/10 else 1) 1 ∧
    (fun k => if k = 0 then (0 : ℝ) else if k = 1 then 1/5
      else if k = 2 then 9/10 else 1) 1 ≤
      (fun k => if k = 0 then (0 : ℝ) else if k = 1 then 1/5
        else if k = 2 then 9/10 else 1) 2 ∧
    p_h 4 (fun k => if k = 0 then (5000 : ℝ) else if k = 1 then 10000
        else if k = 2 then 2000 else 0)
      (fun k => if k = 0 then (0 : ℝ) else if k = 1 then 1/5
        else if k = 2 then 9/10 else 1) 1000 2 <
      p_h 4 (fun k => if k = 0 then (5000 : ℝ) else if k = 1 then 10000
          else if k = 2 then 2000 else 0)
        (fun k => if k = 0 then (0 : ℝ) else if k = 1 then 1/5
          else if k = 2 then 9/10 else 1) 1000 1 := by
  norm_num [p_h]

/-! ## Lower-extrapolation boundary selection in `era5_on_height_levels` -/

/-- `lower_extrapolation_with_mask` of `era5_on_height_levels`:
`xr.where(sea_mask, -1.0e-6, height_h[last])`, where `sea_mask` is the
product of the three point-wise conditions `height_h[last] < 5.0`,
`height_h[last] > 1.0e-6` and `lsm < 0.2`. -/
def lower_extrapolation_with_mask (h_surf lsm : ℚ) : ℚ :=
  if h_surf < 5 ∧ 1e-6 < h_surf ∧ lsm < 0.2 then -1e-6 else h_surf

/-- **C9** counterexample to the claim as stated: a point whose lowest
half-level height `10⁻⁶ m` lies in the open interval `(0, 5 m)` with
land-sea fraction `0` below `0.2`, which the claim says receives the
negative override, keeps its default boundary: the code tests
`height > 1.0e-6`, not `height > 0`. -/
theorem c9_counterexample :
    (0 : ℚ) < 1e-6 ∧ (1e-6 : ℚ) < 5 ∧ (0 : ℚ) < 0.2 ∧
    lower_extrapolation_with_mask 1e-6 0 = 1e-6 ∧
    lower_extrapolation_with_mask 1e-6 0 ≠ -1e-6 := by
  norm_num [lower_extrapolation_with_mask]

/-- **C9** (corrected).  The lower-extrapolation boundary defaults to the
column's lowest half-level height, and is overridden to `-10⁻⁶` exactly
when that height lies in the open interval `(10⁻⁶ m, 5 m)` — not `(0, 5 m)`
— and the land-sea fraction is below `0.2`; the scenario point with lowest
half-level height `2 m` and land-sea fraction `0.05` receives the
override. -/
theorem c9_extrapolation_boundary (h_surf lsm : ℚ) :
    ((1e-6 < h_surf ∧ h_surf < 5 ∧ lsm < 0.2) →
      lower_extrapolation_with_mask h_surf lsm = -1e-6) ∧
    (¬(1e-6 < h_surf ∧ h_surf < 5 ∧ lsm < 0.2) →
      lower_extrapolation_with_mask h_surf lsm = h_surf) ∧
    lower_extrapolation_with_mask 2 (1/20) = -1e-6 := by
  refine ⟨?_, ?_, by norm_num [lower_extrapolation_with_mask]⟩
  · rintro ⟨h1, h2, h3⟩
    rw [lower_extrapolation_with_mask, if_pos ⟨h2, h1, h3⟩]
  · intro h
    rw [lower_extrapolation_with_mask,
      if_neg (fun hx => h ⟨hx.2.1, hx.1, hx.2.2⟩)]

/-- Witness for `c9_extrapolation_boundary`: the near-surface ocean point
`(2 m, 0.05)` is overridden, the tall-column point `(6 m, 0)` keeps its
default boundary. -/
theorem c9_extrapolation_boundary_witness :
    lower_extrapolation_with_mask 2 (1/20) = -1e-6 ∧
    lower_extrapolation_with_mask 6 0 = 6 := by
  constructor
  · exact (c9_extrapolation_boundary 2 (1/20)).1 (by norm_num)
  · exact (c9_extrapolation_boundary 6 0).2.1 (by norm_num)

/-! ## The heights-type guard of `era5_on_height_levels` -/

/-- A Python number as stored in the requested `heights_array`: either an
integral value (an instance of `numbers.Integral`) or a floating value. -/
inductive PyNumber where
  | intVal : ℤ → PyNumber
  | floatVal : ℚ → PyNumber

/-- `isinstance(x, numbers.Integral)`. -/
def PyNumber.isIntegral : PyNumber → Bool
  | PyNumber.intVal _ => true
  | PyNumber.floatVal _ => false

/-- The type guard at the top of `era5_on_height_levels`, with the rest of
the function (dataset construction and per-variable remapping) abstracted as
a continuation `remap`: indexing an empty heights array is itself a Python
error; an integral first element raises before `remap` ever runs; any other
heights array passes the check and is remapped. -/
def era5_on_height_levels_guard {α : Type} (heights : List PyNumber)
    (remap : List PyNumber → α) : Except String α :=
  match heights with
  | [] => Except.error "index 0 is out of bounds"
  | h :: t =>
    if h.isIntegral then
      Except.error "Heights need to be floating numbers, rather than integers"
    else Except.ok (remap (h :: t))

/-- **C10** (confirmed).  A heights array whose first element is
integral-typed makes `era5_on_height_levels` raise the
"Heights need to be floating numbers" exception before any output dataset
is produced (the result does not involve `remap` at all); a floating-point
heights array passes the check and the remapping proceeds. -/
theorem c10_heights_type_guard {α : Type} (remap : List PyNumber → α) :
    (∀ (n : ℤ) (rest : List PyNumber),
      era5_on_height_levels_guard (PyNumber.intVal n :: rest) remap =
        Except.error "Heights need to be floating numbers, rather than integers") ∧
    (∀ (q : ℚ) (rest : List PyNumber),
      era5_on_height_levels_guard (PyNumber.floatVal q :: rest) remap =
        Except.ok (remap (PyNumber.floatVal q :: rest))) := by
  constructor
  · intro n rest
    rfl
  · intro q rest
    rfl

end Lagtraj
